import Mathlib

/-!
Shallow embedding of `src/lib/ranker.js` (the valuation-and-ranking engine of the
CC-project repository) and verification of its specification.

Modelling conventions:
* JavaScript numbers are modelled by `ℚ` (the arithmetic in the engine is
  +, -, *, /, min, max on decimal values).
* Optional / possibly-absent numeric fields are `Option ℚ`; JavaScript
  truthiness of such a field (`undefined`, `null` and `0` are falsy) is
  `jsTruthy`.
* ISO instants are `String`s compared lexicographically, exactly as the
  JavaScript `<` / `>` operators compare strings (`strLt` below is
  definitionally Lean's `String.lt`, which is lexicographic on the
  character list, agreeing with JavaScript for ASCII ISO-8601 strings).
* The human-readable note strings pushed by the engine are modelled by the
  inductive `Note`, one constructor per distinct format string of the
  source (distinct constructors correspond to distinct string shapes).
* JavaScript objects used as string-keyed maps are association lists.
* `Array.prototype.sort` (stable since ES2019) with the source's
  comparator is modelled by `List.insertionSort` with the non-strict
  total preorder `rankBefore`: insertion sort with a reflexive total
  relation produces exactly the stable sorted permutation.
-/

set_option maxHeartbeats 1000000

/-- Lexicographic string comparison as a Boolean, definitionally Lean's `String.lt`
(`s.data < t.data`); models the JavaScript `<` operator on ISO instant strings. -/
def strLt (a b : String) : Bool := decide (a.data < b.data)

/-- Built-in cents-per-point default table (`CPP_DEFAULTS` in ranker.js). -/
def CPP_DEFAULTS : List (String × ℚ) := [("UR", 5/4), ("MR", 1), ("Cap1", 1), ("TYP", 1)]

/-- JavaScript truthiness of an optional numeric field: absent (`undefined`/`null`)
and `0` are falsy, every other number is truthy. -/
def jsTruthy : Option ℚ → Bool
  | none => false
  | some q => q != 0

/-- Embeds `toISOStartOfDay` of ranker.js. -/
def toISOStartOfDay (dateStr : String) : String := dateStr ++ "T00:00:00Z"

/-- Embeds `toISOEndOfDay` of ranker.js. -/
def toISOEndOfDay (dateStr : String) : String := dateStr ++ "T23:59:59Z"

/-- Embeds `isWithin(nowISO, startISO, endISO)` of ranker.js: returns `false` when a
start bound is present and `nowISO < startISO`, or an end bound is present and
`nowISO > endISO`; otherwise `true`. -/
def isWithin (nowISO : String) (startISO endISO : Option String) : Bool :=
  if startISO.any (fun s => strLt nowISO s) then false
  else if endISO.any (fun e => strLt e nowISO) then false
  else true

/-- Embeds a `rotating_rules` entry of a card. `end_` embeds the source field `end`
(a Lean keyword). -/
structure RotatingRule where
  start : Option String
  end_ : Option String
  category_ids : List String
  rate : Option ℚ
  after_rate : Option ℚ
  cap_cents : Option ℚ
  activation_required : Bool
deriving DecidableEq

/-- Embeds the per-card user rotating state (`userRotating[card.id]`). -/
structure UserRotatingState where
  activated : Bool
  remainingCapCents : Option ℚ
deriving DecidableEq

/-- The `{}` default used by `userRotating[card.id] || {}` in ranker.js. -/
def emptyUserState : UserRotatingState := ⟨false, none⟩

/-- Embeds a card record of the catalog, restricted to the fields the engine reads. -/
structure Card where
  id : String
  program : String
  type : Option String
  base : Option ℚ
  cpp_default : Option ℚ
  categories : List (String × ℚ)
  rotating_rules : List RotatingRule
deriving DecidableEq

/-- The resolved rotating-window descriptor returned by `activeRotatingWindow`. -/
structure RotWindow where
  active : Bool
  reason : Option String
  boostRatePercent : ℚ
  afterRatePercent : Option ℚ
  remainingCapCents : ℚ
deriving DecidableEq

/-- The per-rule match test of the loop in `activeRotatingWindow`: the rule's
window (start of day to end of day, either side unbounded when absent)
contains the instant and the rule's `category_ids` includes the category. -/
def ruleMatches (categoryId nowISO : String) (r : RotatingRule) : Bool :=
  isWithin nowISO (r.start.map toISOStartOfDay) (r.end_.map toISOEndOfDay) &&
  r.category_ids.contains categoryId

/-- The descriptor built by `activeRotatingWindow` for the matched rule `r` and
user state `u`. -/
def windowFor (r : RotatingRule) (u : UserRotatingState) : RotWindow :=
  let needsActivation := r.activation_required
  let activated := if needsActivation then u.activated else true
  let capCents : ℚ := match r.cap_cents with | some c => max 0 c | none => 0
  { active := activated
    reason := if activated then none else some "Activation required"
    boostRatePercent := r.rate.getD 0
    afterRatePercent := r.after_rate
    remainingCapCents := max 0 (match u.remainingCapCents with | some x => x | none => capCents) }

/-- Embeds the lookup `userRotating[card.id] || {}`. -/
def lookupUserState (userRotating : List (String × UserRotatingState)) (cardId : String) :
    UserRotatingState :=
  (userRotating.lookup cardId).getD emptyUserState

/-- Embeds `activeRotatingWindow(card, categoryId, nowISO, userRotating)` of ranker.js:
scan `rotating_rules` in order and return the descriptor of the first rule whose
window contains the instant and whose categories include the target, or `null`. -/
def activeRotatingWindow (card : Card) (categoryId nowISO : String)
    (userRotating : List (String × UserRotatingState)) : Option RotWindow :=
  (card.rotating_rules.find? (ruleMatches categoryId nowISO)).map
    (fun r => windowFor r (lookupUserState userRotating card.id))

/-- Result record of `applyCapSplitPercent`. -/
structure CapSplit where
  boostVal : ℚ
  baseVal : ℚ
  boostCents : ℚ
  baseCents : ℚ
deriving DecidableEq

/-- Embeds `applyCapSplitPercent({amountCents, boostPercent, basePercent, remainingCapCents})`
of ranker.js. -/
def applyCapSplitPercent (amountCents boostPercent basePercent remainingCapCents : ℚ) : CapSplit :=
  let boostCents := min amountCents (max 0 remainingCapCents)
  let baseCents := amountCents - boostCents
  { boostVal := (boostCents / 100) * (boostPercent / 100)
    baseVal := (baseCents / 100) * (basePercent / 100)
    boostCents := boostCents
    baseCents := baseCents }

/-- Embeds the possible shapes of an offer's `card_scope` field: the literal
string `"all"`, an array of card ids, or anything else (absent, null, an
object, ...), which the source treats as matching no card. -/
inductive CardScope
  | all : CardScope
  | ids : List String → CardScope
  | other : CardScope
deriving DecidableEq

/-- Embeds the `value` record of an offer; every field may be absent. -/
structure OfferValue where
  fixed_amount : Option ℚ
  percent : Option ℚ
  points_multiplier : Option ℚ
  max_back_cents : Option ℚ
  max_amount_cents : Option ℚ
deriving DecidableEq

/-- Embeds an offer record, restricted to the fields the engine reads. -/
structure Offer where
  id : String
  offer_type : String
  value : OfferValue
  min_spend_cents : Option ℚ
  categories : List String
  card_scope : CardScope
  start_at : Option String
  end_at : Option String
  enrollment_required : Bool
deriving DecidableEq

/-- Embeds `offerAppliesToCard(off, card)` of ranker.js. -/
def offerAppliesToCard (off : Offer) (card : Card) : Bool :=
  match off.card_scope with
  | .all => true
  | .ids l => l.contains card.id
  | .other => false

/-- Embeds `offerMatchesCategory(off, categoryId)` of ranker.js: an empty (or
absent) category list matches every category. -/
def offerMatchesCategory (off : Offer) (categoryId : String) : Bool :=
  off.categories.isEmpty || off.categories.contains categoryId

/-- Embeds `offerActiveNow(off, nowISO)` of ranker.js. -/
def offerActiveNow (off : Offer) (nowISO : String) : Bool :=
  isWithin nowISO off.start_at off.end_at

/-- Models the note strings pushed by `valueFor`, one constructor per distinct
format string of the source file. -/
inductive Note
  | rotatingApplied (boostPercent : ℚ) (boostDollars : ℚ)
  | activationRequired
  | enrollmentRequired
  | statementCredit (dollars : ℚ)
  | percentBackCapped (percent : ℚ) (capDollars : ℚ)
  | percentBack (percent : ℚ)
  | pointsMultiplier (extraX : ℚ)
deriving DecidableEq

/-- Embeds the valuation parameter record passed to `valueFor` / `rankCards`. -/
structure ValueParams where
  amountCents : ℚ
  categoryId : String
  programOverrides : List (String × ℚ)
  nowISO : String
  userRotating : List (String × UserRotatingState)
  userEnrolledOfferIds : List String
deriving DecidableEq

/-- Embeds the cents-per-point resolution chain of `valueFor`:
`programOverrides[card.program] ?? card.cpp_default ?? CPP_DEFAULTS[card.program] ?? 1.0`. -/
def cppFor (card : Card) (programOverrides : List (String × ℚ)) : ℚ :=
  ((programOverrides.lookup card.program).or
    ((card.cpp_default).or (CPP_DEFAULTS.lookup card.program))).getD 1

/-- Embeds the static multiplier resolution of `valueFor`:
`Number.isFinite(cats[categoryId]) ? cats[categoryId] : Number(card.base) || 1`. -/
def staticMultFor (card : Card) (categoryId : String) : ℚ :=
  match card.categories.lookup categoryId with
  | some m => m
  | none => match card.base with
    | some b => if b ≠ 0 then b else 1
    | none => 1

/-- Embeds the cap resolution `off.value.max_back_cents || off.value.max_amount_cents`
of the percent-valued offer branches: the JavaScript `||` keeps the first operand
when it is truthy and otherwise yields the second. -/
def resolvedCapCents (v : OfferValue) : Option ℚ :=
  if jsTruthy v.max_back_cents then v.max_back_cents else v.max_amount_cents

/-- The percent/cap value computation shared by the `statement_credit` percent
branch and the `percent_back` branch of `valueFor`: value `amount * percent/100`,
capped at the resolved cap (in dollars) when that cap is truthy and finite, with
the corresponding note. -/
def percentBonusAndNote (amount : ℚ) (v : OfferValue) : ℚ × Note :=
  let p := v.percent.getD 0
  let raw := amount * (p / 100)
  if jsTruthy (resolvedCapCents v) then
    let capDollars := (resolvedCapCents v).getD 0 / 100
    (min raw capDollars, Note.percentBackCapped p capDollars)
  else (raw, Note.percentBack p)

/-- One iteration of the offer-stacking loop of `valueFor`, acting on the
accumulated `(bonusValue, notes)` pair. -/
def offerStep (card : Card) (ps : ValueParams) (cpp : ℚ) (type : String)
    (acc : ℚ × List Note) (off : Offer) : ℚ × List Note :=
  if ¬ offerActiveNow off ps.nowISO then acc
  else if ¬ offerAppliesToCard off card then acc
  else if ¬ offerMatchesCategory off ps.categoryId then acc
  else if off.enrollment_required && !(ps.userEnrolledOfferIds.contains off.id) then
    if acc.2.contains Note.enrollmentRequired then acc
    else (acc.1, acc.2 ++ [Note.enrollmentRequired])
  else
    if off.offer_type = "statement_credit" then
      if ps.amountCents ≥ off.min_spend_cents.getD 0 then
        if jsTruthy off.value.fixed_amount then
          (acc.1 + off.value.fixed_amount.getD 0 / 100,
           acc.2 ++ [Note.statementCredit (off.value.fixed_amount.getD 0 / 100)])
        else if jsTruthy off.value.percent then
          (acc.1 + (percentBonusAndNote (ps.amountCents / 100) off.value).1,
           acc.2 ++ [(percentBonusAndNote (ps.amountCents / 100) off.value).2])
        else acc
      else acc
    else if off.offer_type = "percent_back" then
      (acc.1 + (percentBonusAndNote (ps.amountCents / 100) off.value).1,
       acc.2 ++ [(percentBonusAndNote (ps.amountCents / 100) off.value).2])
    else if off.offer_type = "points_multiplier" then
      ((if type = "cashback" then
          acc.1 + (ps.amountCents / 100) * (off.value.points_multiplier.getD 0 / 100)
        else acc.1 + (ps.amountCents / 100) * off.value.points_multiplier.getD 0 * (cpp / 100)),
       acc.2 ++ [Note.pointsMultiplier (off.value.points_multiplier.getD 0)])
    else acc

/-- The base-earnings step (1) of `valueFor`: returns
`(baseValue, initial bonusValue, initial notes)`. -/
def baseEarnings (card : Card) (ps : ValueParams) (cpp staticMult : ℚ) (type : String) :
    ℚ × ℚ × List Note :=
  if type = "cashback" then
    match activeRotatingWindow card ps.categoryId ps.nowISO ps.userRotating with
    | some win =>
      if win.active then
        ((applyCapSplitPercent ps.amountCents win.boostRatePercent
            (win.afterRatePercent.getD staticMult) win.remainingCapCents).baseVal,
         (applyCapSplitPercent ps.amountCents win.boostRatePercent
            (win.afterRatePercent.getD staticMult) win.remainingCapCents).boostVal,
         [Note.rotatingApplied win.boostRatePercent
            ((applyCapSplitPercent ps.amountCents win.boostRatePercent
                (win.afterRatePercent.getD staticMult) win.remainingCapCents).boostCents / 100)])
      else ((ps.amountCents / 100) * (staticMult / 100), 0, [Note.activationRequired])
    | none => ((ps.amountCents / 100) * (staticMult / 100), 0, [])
  else ((ps.amountCents / 100) * staticMult * (cpp / 100), 0, [])

/-- Output record of `valueFor`. -/
structure ValuationResult where
  dollars : ℚ
  baseValue : ℚ
  bonusValue : ℚ
  notes : List Note
deriving DecidableEq

/-- Embeds `valueFor(card, params, offersForCard)` of ranker.js. -/
def valueFor (card : Card) (ps : ValueParams) (offersForCard : List Offer) : ValuationResult :=
  let cpp := cppFor card ps.programOverrides
  let type := card.type.getD "points"
  let staticMult := staticMultFor card ps.categoryId
  let b := baseEarnings card ps cpp staticMult type
  let folded := offersForCard.foldl (offerStep card ps cpp type) (b.2.1, b.2.2)
  { dollars := b.1 + folded.1
    baseValue := b.1
    bonusValue := folded.1
    notes := folded.2 }

/-- Output record of `rankCards`: a valuation result together with its card
(the source spreads `{card, ...v}`). -/
structure RankedResult where
  card : Card
  dollars : ℚ
  baseValue : ℚ
  bonusValue : ℚ
  notes : List Note
deriving DecidableEq

/-- Packs a card and its valuation into a `RankedResult`. -/
def toRanked (card : Card) (v : ValuationResult) : RankedResult :=
  ⟨card, v.dollars, v.baseValue, v.bonusValue, v.notes⟩

/-- The non-strict total preorder realised by the sort comparator of `rankCards`
(`b.dollars - a.dollars`, ties by `b.bonusValue - a.bonusValue`): `a` may be
placed before `b` iff the comparator is ≤ 0 on `(a, b)`. -/
def rankBefore (a b : RankedResult) : Prop :=
  b.dollars < a.dollars ∨ (a.dollars = b.dollars ∧ b.bonusValue ≤ a.bonusValue)

instance : DecidableRel rankBefore := fun a b => by
  unfold rankBefore; infer_instance

/-- Embeds `rankCards(cards, params, offersByCard)` of ranker.js: one valuation per
card, then the stable sort by the comparator (descending dollars, ties by
descending bonusValue). -/
def rankCards (cards : List Card) (ps : ValueParams)
    (offersByCard : List (String × List Offer)) : List RankedResult :=
  List.insertionSort rankBefore
    (cards.map (fun card => toRanked card (valueFor card ps ((offersByCard.lookup card.id).getD []))))

/-! ## Basic bridging lemmas -/

theorem strLt_iff (a b : String) : strLt a b = true ↔ a < b := by
  simp [strLt]

/-! ## C2: cap split conservation -/

/-- C2: for every purchase amount in cents and every remaining cap, the cap split
calculator returns `boostCents = min(amountCents, max(0, remainingCapCents))` and
`baseCents = amountCents - boostCents`, so `boostCents + baseCents = amountCents`
always and `boostCents` never exceeds the clamped, non-negative remaining cap,
with `boostVal`/`baseVal` equal to each portion's value at its respective percent. -/
theorem applyCapSplitPercent_spec (amountCents boostPercent basePercent remainingCapCents : ℚ) :
    (applyCapSplitPercent amountCents boostPercent basePercent remainingCapCents).boostCents =
      min amountCents (max 0 remainingCapCents) ∧
    (applyCapSplitPercent amountCents boostPercent basePercent remainingCapCents).baseCents =
      amountCents -
        (applyCapSplitPercent amountCents boostPercent basePercent remainingCapCents).boostCents ∧
    (applyCapSplitPercent amountCents boostPercent basePercent remainingCapCents).boostCents +
        (applyCapSplitPercent amountCents boostPercent basePercent remainingCapCents).baseCents =
      amountCents ∧
    (applyCapSplitPercent amountCents boostPercent basePercent remainingCapCents).boostCents ≤
      max 0 remainingCapCents ∧
    (applyCapSplitPercent amountCents boostPercent basePercent remainingCapCents).boostVal =
      ((applyCapSplitPercent amountCents boostPercent basePercent remainingCapCents).boostCents / 100) *
        (boostPercent / 100) ∧
    (applyCapSplitPercent amountCents boostPercent basePercent remainingCapCents).baseVal =
      ((applyCapSplitPercent amountCents boostPercent basePercent remainingCapCents).baseCents / 100) *
        (basePercent / 100) := by
  refine ⟨rfl, rfl, ?_, min_le_right _ _, rfl, rfl⟩
  simp [applyCapSplitPercent]

/-! ## C5: offer window bounds -/

/-- Concrete offer for the C5 counterexample: its `end_at` equals the instant under test. -/
def c5off : Offer :=
  ⟨"o5", "percent_back", ⟨none, some 5, none, none, none⟩, none, [], CardScope.all,
   some "2025-06-01T00:00:00Z", some "2025-06-30T23:59:59Z", false⟩

/-- C5 (counterexample): an offer whose `end_at` equals the current instant DOES pass the
window filter (`offerActiveNow` returns `true`), contradicting the claim that the end
bound is exclusive. -/
theorem offerActiveNow_end_equal_passes :
    c5off.end_at = some "2025-06-30T23:59:59Z" ∧
    offerActiveNow c5off "2025-06-30T23:59:59Z" = true := by
  refine ⟨rfl, by decide⟩

/-- C5 (amended): the active-window filter treats `start_at` inclusively and `end_at`
inclusively as well — the offer passes exactly when every present start bound is ≤ the
instant and the instant is ≤ every present end bound; either bound may be absent, making
the window unbounded on that side. -/
theorem offerActiveNow_inclusive_bounds (off : Offer) (nowISO : String) :
    offerActiveNow off nowISO = true ↔
      (∀ s ∈ off.start_at, s ≤ nowISO) ∧ (∀ e ∈ off.end_at, nowISO ≤ e) := by
  cases hs : off.start_at <;> cases he : off.end_at <;>
    simp [offerActiveNow, isWithin, hs, he, strLt, String.lt_iff_toList_lt,
      String.le_iff_toList_le, not_lt, String.toList]

/-! ## C4: first-match rotating window resolution -/

/-- C4: the rotating window resolver returns the descriptor of the FIRST rule in declared
order whose window contains the instant and whose `category_ids` includes the target
category — scanning stops there even when the matched rule is inactive (no assumption is
made on the matched rule's activation state or on the rules after it) — and for the
matched rule `active` is the caller's `activated` flag when `activation_required` is set
(with reason `"Activation required"` when inactive) and `true` otherwise. -/
theorem activeRotatingWindow_first_match (card : Card) (categoryId nowISO : String)
    (ur : List (String × UserRotatingState)) (l₁ l₂ : List RotatingRule) (r : RotatingRule)
    (hrules : card.rotating_rules = l₁ ++ r :: l₂)
    (hskip : ∀ q ∈ l₁, ruleMatches categoryId nowISO q = false)
    (hmatch : ruleMatches categoryId nowISO r = true) :
    ∃ w, activeRotatingWindow card categoryId nowISO ur = some w ∧
      w.active = (if r.activation_required then (lookupUserState ur card.id).activated
        else true) ∧
      w.reason = (if w.active then none else some "Activation required") ∧
      w.boostRatePercent = r.rate.getD 0 ∧
      w.afterRatePercent = r.after_rate := by
  have hfind0 : ∀ l : List RotatingRule, (∀ q ∈ l, ruleMatches categoryId nowISO q = false) →
      List.find? (ruleMatches categoryId nowISO) (l ++ r :: l₂) = some r := by
    intro l
    induction l with
    | nil => intro _; simp [List.find?_cons_of_pos, hmatch]
    | cons q l ih =>
      intro hsk
      rw [List.cons_append, List.find?_cons_of_neg]
      · exact ih (fun q' hq' => hsk q' (List.mem_cons_of_mem q hq'))
      · simp [hsk q (List.mem_cons_self q l)]
  have hfind : card.rotating_rules.find? (ruleMatches categoryId nowISO) = some r := by
    rw [hrules]; exact hfind0 l₁ hskip
  refine ⟨windowFor r (lookupUserState ur card.id), ?_, rfl, ?_, rfl, rfl⟩
  · simp [activeRotatingWindow, hfind]
  · simp [windowFor]

/-- Rules and card for the C4 witness: the first rule matches but requires activation the
user has not performed; a second, always-active rule also matches and must be ignored. -/
def c4rule1 : RotatingRule :=
  ⟨some "2025-04-01", some "2025-06-30", ["grocery"], some 5, some 1, some 150000, true⟩

/-- Second matching rule of the C4 witness card (must not be reached). -/
def c4rule2 : RotatingRule := ⟨none, none, ["grocery"], some 3, none, none, false⟩

/-- Witness card for C4. -/
def c4card : Card := ⟨"c4", "cashback", some "cashback", some 1, none, [], [c4rule1, c4rule2]⟩

/-- C4 witness: the theorem applied at a concrete card whose first matching rule is
inactive. -/
theorem activeRotatingWindow_first_match_witness :
    ∃ w, activeRotatingWindow c4card "grocery" "2025-06-15T12:00:00Z" [] = some w ∧
      w.active = (if c4rule1.activation_required then (lookupUserState [] c4card.id).activated
        else true) ∧
      w.reason = (if w.active then none else some "Activation required") ∧
      w.boostRatePercent = c4rule1.rate.getD 0 ∧
      w.afterRatePercent = c4rule1.after_rate :=
  activeRotatingWindow_first_match c4card "grocery" "2025-06-15T12:00:00Z" [] [] [c4rule2]
    c4rule1 rfl (by simp) (by decide)

/-! ## C10: invalid card scope -/

/-- C10: an offer whose `card_scope` is neither the literal `"all"` nor an array fails the
card-scope filter for every card, and removing it from the offer list leaves the whole
valuation result (value and notes) unchanged. -/
theorem valueFor_ignores_invalid_scope (card : Card) (ps : ValueParams)
    (pre post : List Offer) (off : Offer) (h : off.card_scope = CardScope.other) :
    offerAppliesToCard off card = false ∧
    valueFor card ps (pre ++ off :: post) = valueFor card ps (pre ++ post) := by
  have happ : offerAppliesToCard off card = false := by
    simp [offerAppliesToCard, h]
  refine ⟨happ, ?_⟩
  have hstep : ∀ cpp ty acc, offerStep card ps cpp ty acc off = acc := by
    intro cpp ty acc
    simp [offerStep, happ]
  simp [valueFor, List.foldl_append, hstep]

/-- Offer with a malformed `card_scope` for the C10 witness. -/
def c10off : Offer :=
  ⟨"o10", "percent_back", ⟨none, some 10, none, none, none⟩, none, [], CardScope.other,
   none, none, false⟩

/-- Ordinary offer surrounding the malformed one in the C10 witness. -/
def c10other : Offer :=
  ⟨"o10b", "percent_back", ⟨none, some 2, none, none, none⟩, none, [], CardScope.all,
   none, none, false⟩

/-- Witness card for C10. -/
def c10card : Card := ⟨"c10", "cashback", some "cashback", some 2, none, [], []⟩

/-- Witness params for C10. -/
def c10ps : ValueParams := ⟨5000, "grocery", [], "2025-06-15T12:00:00Z", [], []⟩

/-- C10 witness: the theorem applied at a concrete malformed-scope offer. -/
theorem valueFor_ignores_invalid_scope_witness :
    offerAppliesToCard c10off c10card = false ∧
    valueFor c10card c10ps ([c10other] ++ c10off :: []) = valueFor c10card c10ps ([c10other] ++ []) :=
  valueFor_ignores_invalid_scope c10card c10ps [c10other] [] c10off rfl

/-! ## Per-offer contribution and the enrollment gate (C3) -/

/-- The filter conditions under which the offer loop of `valueFor` skips an offer for
lack of enrollment: it passes the window, card-scope and category filters, requires
enrollment, and its id is not in the caller's enrolled set. -/
def enrollmentSkipped (card : Card) (ps : ValueParams) (off : Offer) : Bool :=
  offerActiveNow off ps.nowISO && offerAppliesToCard off card &&
    offerMatchesCategory off ps.categoryId &&
    (off.enrollment_required && !(ps.userEnrolledOfferIds.contains off.id))

/-- The pure dollar increment a single offer adds to `bonusValue` in the offer loop of
`valueFor` (zero when the offer is filtered out, skipped for enrollment, or of unknown
type); `offerStep` adds exactly this amount to its accumulator. -/
def offerContrib (card : Card) (ps : ValueParams) (cpp : ℚ) (type : String)
    (off : Offer) : ℚ :=
  if ¬ offerActiveNow off ps.nowISO then 0
  else if ¬ offerAppliesToCard off card then 0
  else if ¬ offerMatchesCategory off ps.categoryId then 0
  else if off.enrollment_required && !(ps.userEnrolledOfferIds.contains off.id) then 0
  else
    if off.offer_type = "statement_credit" then
      if ps.amountCents ≥ off.min_spend_cents.getD 0 then
        if jsTruthy off.value.fixed_amount then off.value.fixed_amount.getD 0 / 100
        else if jsTruthy off.value.percent then
          (percentBonusAndNote (ps.amountCents / 100) off.value).1
        else 0
      else 0
    else if off.offer_type = "percent_back" then
      (percentBonusAndNote (ps.amountCents / 100) off.value).1
    else if off.offer_type = "points_multiplier" then
      (if type = "cashback" then
        (ps.amountCents / 100) * (off.value.points_multiplier.getD 0 / 100)
       else (ps.amountCents / 100) * off.value.points_multiplier.getD 0 * (cpp / 100))
    else 0

theorem offerStep_fst (card : Card) (ps : ValueParams) (cpp : ℚ) (type : String)
    (acc : ℚ × List Note) (off : Offer) :
    (offerStep card ps cpp type acc off).1 = acc.1 + offerContrib card ps cpp type off := by
  simp only [offerStep, offerContrib]
  split_ifs <;> simp

theorem foldl_offerStep_fst (card : Card) (ps : ValueParams) (cpp : ℚ) (type : String) :
    ∀ (offs : List Offer) (acc : ℚ × List Note),
      (offs.foldl (offerStep card ps cpp type) acc).1 =
        acc.1 + ((offs.map (offerContrib card ps cpp type)).sum) := by
  intro offs
  induction offs with
  | nil => intro acc; simp
  | cons o offs ih =>
    intro acc
    simp only [List.foldl_cons, List.map_cons, List.sum_cons]
    rw [ih, offerStep_fst]
    ring

theorem offerStep_snd_skip (card : Card) (ps : ValueParams) (cpp : ℚ) (type : String)
    (acc : ℚ × List Note) (off : Offer) (h : enrollmentSkipped card ps off = true) :
    (offerStep card ps cpp type acc off).2 =
      (if acc.2.contains Note.enrollmentRequired then acc.2
       else acc.2 ++ [Note.enrollmentRequired]) := by
  simp only [enrollmentSkipped, Bool.and_eq_true, Bool.not_eq_true'] at h
  obtain ⟨⟨⟨h1, h2⟩, h3⟩, h4, h5⟩ := h
  simp only [offerStep, h1, h2, h3, h4, h5]
  split_ifs <;> simp_all

theorem percentBonusAndNote_snd_ne (amount : ℚ) (v : OfferValue) :
    (percentBonusAndNote amount v).2 ≠ Note.enrollmentRequired := by
  simp only [percentBonusAndNote]
  split_ifs <;> simp

theorem offerStep_snd_noskip (card : Card) (ps : ValueParams) (cpp : ℚ) (type : String)
    (acc : ℚ × List Note) (off : Offer) (h : enrollmentSkipped card ps off = false) :
    ∃ ns : List Note, (offerStep card ps cpp type acc off).2 = acc.2 ++ ns ∧
      Note.enrollmentRequired ∉ ns := by
  simp only [offerStep]
  split_ifs <;>
    first
      | (refine ⟨[], ?_, ?_⟩ <;> (simp; done))
      | (refine ⟨_, rfl, ?_⟩; simp; done)
      | (refine ⟨_, rfl, ?_⟩; simp only [List.mem_singleton]; intro hh;
         exact percentBonusAndNote_snd_ne _ _ hh.symm)
      | (exfalso; revert h; simp_all [enrollmentSkipped])

theorem foldl_offerStep_count (card : Card) (ps : ValueParams) (cpp : ℚ) (type : String) :
    ∀ (offs : List Offer) (b : ℚ) (n : List Note),
      n.count Note.enrollmentRequired =
          (if n.contains Note.enrollmentRequired then 1 else 0) →
      ((offs.foldl (offerStep card ps cpp type) (b, n)).2).count Note.enrollmentRequired =
        (if n.contains Note.enrollmentRequired || offs.any (enrollmentSkipped card ps)
         then 1 else 0) := by
  intro offs
  induction offs with
  | nil => intro b n hn; simpa using hn
  | cons o offs ih =>
    intro b n hn
    have heta : offs.foldl (offerStep card ps cpp type) (offerStep card ps cpp type (b, n) o) =
        offs.foldl (offerStep card ps cpp type)
          ((offerStep card ps cpp type (b, n) o).1, (offerStep card ps cpp type (b, n) o).2) := by
      rw [Prod.mk.eta]
    cases hsk : enrollmentSkipped card ps o with
    | false =>
      obtain ⟨ns, hns, hmem⟩ := offerStep_snd_noskip card ps cpp type (b, n) o hsk
      have hcont : ((offerStep card ps cpp type (b, n) o).2).contains Note.enrollmentRequired =
          n.contains Note.enrollmentRequired := by
        rw [hns]
        cases hc : n.contains Note.enrollmentRequired <;> simp_all
      have hcount : ((offerStep card ps cpp type (b, n) o).2).count Note.enrollmentRequired =
          n.count Note.enrollmentRequired := by
        rw [hns, List.count_append, List.count_eq_zero_of_not_mem hmem]
        simp
      simp only [List.foldl_cons, List.any_cons, hsk, Bool.false_or]
      rw [heta, ih _ _ (by rw [hcount, hcont]; exact hn), hcont]
    | true =>
      have hstep := offerStep_snd_skip card ps cpp type (b, n) o hsk
      cases hc : n.contains Note.enrollmentRequired with
      | false =>
        have hstep2 : (offerStep card ps cpp type (b, n) o).2 =
            n ++ [Note.enrollmentRequired] := by
          rw [hstep, hc]; simp
        have hcont : ((offerStep card ps cpp type (b, n) o).2).contains
            Note.enrollmentRequired = true := by
          rw [hstep2]; simp
        have hcount : ((offerStep card ps cpp type (b, n) o).2).count
            Note.enrollmentRequired = 1 := by
          have h0 : n.count Note.enrollmentRequired = 0 := by rw [hn, hc]; simp
          rw [hstep2, List.count_append, h0]
          simp
        simp only [List.foldl_cons, List.any_cons, hsk, hc, Bool.true_or, Bool.false_or]
        rw [heta, ih _ _ (by rw [hcount, hcont]; simp), hcont]
        simp
      | true =>
        have hstep2 : (offerStep card ps cpp type (b, n) o).2 = n := by
          rw [hstep, hc]; simp
        simp only [List.foldl_cons, List.any_cons, hsk, hc, Bool.true_or]
        rw [heta, hstep2]
        have := ih (offerStep card ps cpp type (b, n) o).1 n hn
        rw [this, hc]
        simp

theorem baseEarnings_notes_no_enrollment (card : Card) (ps : ValueParams) (cpp sm : ℚ)
    (ty : String) : Note.enrollmentRequired ∉ (baseEarnings card ps cpp sm ty).2.2 := by
  unfold baseEarnings
  split
  · split
    · split
      · simp
      · simp
    · simp
  · simp

theorem offerContrib_skipped_zero (card : Card) (ps : ValueParams) (cpp : ℚ) (ty : String)
    (off : Offer) (h : enrollmentSkipped card ps off = true) :
    offerContrib card ps cpp ty off = 0 := by
  simp only [enrollmentSkipped, Bool.and_eq_true] at h
  obtain ⟨⟨⟨h1, h2⟩, h3⟩, h4, h5⟩ := h
  have h5' : off.id ∉ ps.userEnrolledOfferIds := by simpa using h5
  simp [offerContrib, h1, h2, h3, h4, h5']

theorem sum_offerContrib_filter (card : Card) (ps : ValueParams) (cpp : ℚ) (ty : String) :
    ∀ offs : List Offer,
      (((offs.filter (fun o => !(enrollmentSkipped card ps o))).map
          (offerContrib card ps cpp ty)).sum) =
        ((offs.map (offerContrib card ps cpp ty)).sum) := by
  intro offs
  induction offs with
  | nil => simp
  | cons o offs ih =>
    cases hsk : enrollmentSkipped card ps o with
    | false => simp [List.filter_cons, hsk, ih]
    | true =>
      simp [List.filter_cons, hsk, ih, offerContrib_skipped_zero card ps cpp ty o hsk]

/-- C3: an offer that passes the window, card-scope and category filters but requires an
enrollment the user has not performed contributes nothing to `bonusValue` (filtering all
such offers out of the list leaves `bonusValue` unchanged), and the
`"Offer requires enrollment"` note appears in the notes exactly once when at least one
offer is skipped this way — regardless of how many are — and never otherwise. -/
theorem valueFor_enrollment_gate (card : Card) (ps : ValueParams) (offs : List Offer) :
    (valueFor card ps offs).bonusValue =
      (valueFor card ps (offs.filter (fun o => !(enrollmentSkipped card ps o)))).bonusValue ∧
    (valueFor card ps offs).notes.count Note.enrollmentRequired =
      (if offs.any (enrollmentSkipped card ps) then 1 else 0) := by
  have hmem := baseEarnings_notes_no_enrollment card ps (cppFor card ps.programOverrides)
    (staticMultFor card ps.categoryId) (card.type.getD "points")
  have hcontains : ((baseEarnings card ps (cppFor card ps.programOverrides)
      (staticMultFor card ps.categoryId) (card.type.getD "points")).2.2).contains
      Note.enrollmentRequired = false := by
    rw [Bool.eq_false_iff]
    intro hcc
    exact hmem (by simpa using hcc)
  constructor
  · simp only [valueFor]
    rw [foldl_offerStep_fst, foldl_offerStep_fst, sum_offerContrib_filter]
  · simp only [valueFor]
    rw [foldl_offerStep_count card ps (cppFor card ps.programOverrides)
      (card.type.getD "points") offs _ _
      (by rw [hcontains, List.count_eq_zero_of_not_mem hmem]; simp), hcontains]
    simp

/-! ## Cap resolution for percent-valued offers (C6, C9) -/

/-- The effective cap actually used by the engine, written as the amended claims state
it: `max_back_cents` wins when present and non-zero; a zero or absent `max_back_cents`
falls through to `max_amount_cents` (when present and non-zero); otherwise no cap. -/
def effectiveCap (v : OfferValue) : Option ℚ :=
  match v.max_back_cents with
  | some c =>
    if c ≠ 0 then some c
    else
      match v.max_amount_cents with
      | some c2 => if c2 ≠ 0 then some c2 else none
      | none => none
  | none =>
    match v.max_amount_cents with
    | some c2 => if c2 ≠ 0 then some c2 else none
    | none => none

theorem percentBonusAndNote_eq_effectiveCap (amount : ℚ) (v : OfferValue) :
    percentBonusAndNote amount v =
      (match effectiveCap v with
       | some c => (min (amount * (v.percent.getD 0 / 100)) (c / 100),
                    Note.percentBackCapped (v.percent.getD 0) (c / 100))
       | none => (amount * (v.percent.getD 0 / 100), Note.percentBack (v.percent.getD 0))) := by
  unfold percentBonusAndNote resolvedCapCents effectiveCap jsTruthy
  rcases hmb : v.max_back_cents with _ | c <;> rcases hma : v.max_amount_cents with _ | c2 <;>
    simp only [] <;> split_ifs <;> simp_all

theorem valueFor_single_percent (card : Card) (ps : ValueParams) (off : Offer)
    (h1 : offerActiveNow off ps.nowISO = true)
    (h2 : offerAppliesToCard off card = true)
    (h3 : offerMatchesCategory off ps.categoryId = true)
    (h4 : (off.enrollment_required && !(ps.userEnrolledOfferIds.contains off.id)) = false)
    (h5 : off.offer_type = "percent_back" ∨
       (off.offer_type = "statement_credit" ∧ ps.amountCents ≥ off.min_spend_cents.getD 0 ∧
        jsTruthy off.value.fixed_amount = false ∧ jsTruthy off.value.percent = true)) :
    (valueFor card ps [off]).bonusValue = (valueFor card ps []).bonusValue +
        (percentBonusAndNote (ps.amountCents / 100) off.value).1 ∧
    (valueFor card ps [off]).notes = (valueFor card ps []).notes ++
        [(percentBonusAndNote (ps.amountCents / 100) off.value).2] := by
  have h4' : ¬(off.enrollment_required = true ∧ off.id ∉ ps.userEnrolledOfferIds) := by
    simpa using h4
  rcases h5 with h5 | ⟨h5, h6, h7, h8⟩
  · constructor <;> simp [valueFor, offerStep, h1, h2, h3, h4', h5]
  · constructor <;> simp [valueFor, offerStep, h1, h2, h3, h4', h5, h6, h7, h8]

/-- C6 (amended): for a percent-valued `statement_credit` or `percent_back` offer that
passes filtering, the cap is resolved by JavaScript truthiness rather than first
non-null: `max_back_cents` wins when present and non-zero, else `max_amount_cents` when
present and non-zero, else no cap applies — so `max_back_cents = 0` falls through
instead of capping at $0.00. -/
theorem valueFor_cap_resolution (card : Card) (ps : ValueParams) (off : Offer)
    (h1 : offerActiveNow off ps.nowISO = true)
    (h2 : offerAppliesToCard off card = true)
    (h3 : offerMatchesCategory off ps.categoryId = true)
    (h4 : (off.enrollment_required && !(ps.userEnrolledOfferIds.contains off.id)) = false)
    (h5 : off.offer_type = "percent_back" ∨
       (off.offer_type = "statement_credit" ∧ ps.amountCents ≥ off.min_spend_cents.getD 0 ∧
        jsTruthy off.value.fixed_amount = false ∧ jsTruthy off.value.percent = true)) :
    (valueFor card ps [off]).bonusValue = (valueFor card ps []).bonusValue +
      (match effectiveCap off.value with
       | some c => min ((ps.amountCents / 100) * (off.value.percent.getD 0 / 100)) (c / 100)
       | none => (ps.amountCents / 100) * (off.value.percent.getD 0 / 100)) := by
  obtain ⟨hb, -⟩ := valueFor_single_percent card ps off h1 h2 h3 h4 h5
  rw [hb, percentBonusAndNote_eq_effectiveCap]
  cases effectiveCap off.value <;> simp

/-- Witness card for C6/C9. -/
def c6card : Card := ⟨"c6", "cashback", some "cashback", some 1, none, [], []⟩

/-- C6 counterexample offer: `max_back_cents = 0` alongside `max_amount_cents = 500`. -/
def c6off : Offer :=
  ⟨"o6", "percent_back", ⟨none, some 10, none, some 0, some 500⟩, none, [], CardScope.all,
   none, none, false⟩

/-- Witness params for C6/C9. -/
def c6ps : ValueParams := ⟨10000, "grocery", [], "2025-06-15T12:00:00Z", [], []⟩

/-- C6 (counterexample): with `max_back_cents = 0` and `max_amount_cents = 500` on a 10%
offer over $100, the engine pays $5.00 (capped by `max_amount_cents`), not the $0.00 the
first-non-null-wins claim demands. -/
theorem valueFor_zero_max_back_falls_through :
    (valueFor c6card c6ps [c6off]).bonusValue = 5 ∧
    (valueFor c6card c6ps [c6off]).bonusValue ≠ 0 := by
  have h : (valueFor c6card c6ps [c6off]).bonusValue = 5 := by
    norm_num +decide [valueFor, baseEarnings, offerStep, cppFor, staticMultFor,
      activeRotatingWindow, CPP_DEFAULTS, offerActiveNow, isWithin, offerAppliesToCard,
      offerMatchesCategory, percentBonusAndNote, resolvedCapCents, jsTruthy,
      c6card, c6off, c6ps]
  exact ⟨h, by rw [h]; norm_num⟩

/-- C6 witness: the amended cap-resolution theorem applied at the concrete
zero-`max_back_cents` offer. -/
theorem valueFor_cap_resolution_witness :
    (valueFor c6card c6ps [c6off]).bonusValue = (valueFor c6card c6ps []).bonusValue +
      (match effectiveCap c6off.value with
       | some c => min ((c6ps.amountCents / 100) * (c6off.value.percent.getD 0 / 100)) (c / 100)
       | none => (c6ps.amountCents / 100) * (c6off.value.percent.getD 0 / 100)) :=
  valueFor_cap_resolution c6card c6ps c6off (by decide) (by decide) (by decide) (by decide)
    (Or.inl rfl)

/-- C9 (amended): for a percent-valued offer that passes filtering, the
`"{p}% back (capped at $X.XX)"` note is emitted exactly when a (truthiness-resolved)
cap is configured on the offer — whether or not the cap actually reduced the
contribution — and the plain `"{p}% back"` note is emitted otherwise. -/
theorem valueFor_cap_note (card : Card) (ps : ValueParams) (off : Offer)
    (h1 : offerActiveNow off ps.nowISO = true)
    (h2 : offerAppliesToCard off card = true)
    (h3 : offerMatchesCategory off ps.categoryId = true)
    (h4 : (off.enrollment_required && !(ps.userEnrolledOfferIds.contains off.id)) = false)
    (h5 : off.offer_type = "percent_back" ∨
       (off.offer_type = "statement_credit" ∧ ps.amountCents ≥ off.min_spend_cents.getD 0 ∧
        jsTruthy off.value.fixed_amount = false ∧ jsTruthy off.value.percent = true)) :
    (valueFor card ps [off]).notes = (valueFor card ps []).notes ++
      [(match effectiveCap off.value with
        | some c => Note.percentBackCapped (off.value.percent.getD 0) (c / 100)
        | none => Note.percentBack (off.value.percent.getD 0))] := by
  obtain ⟨-, hn⟩ := valueFor_single_percent card ps off h1 h2 h3 h4 h5
  rw [hn, percentBonusAndNote_eq_effectiveCap]
  cases effectiveCap off.value <;> simp

/-- C9 counterexample offer: 10% with a $20.00 cap that does not bind at a $10 purchase. -/
def c9off : Offer :=
  ⟨"o9", "percent_back", ⟨none, some 10, none, some 2000, none⟩, none, [], CardScope.all,
   none, none, false⟩

/-- Params for the C9 counterexample: a $10.00 purchase. -/
def c9ps : ValueParams := ⟨1000, "grocery", [], "2025-06-15T12:00:00Z", [], []⟩

/-- C9 (counterexample): at a $10 purchase the 10% offer's raw value ($1.00) is below its
$20.00 cap, so the cap does not reduce the contribution — the contribution equals the
raw `amount × percent/100` — yet the engine still emits the "capped at $20.00" note,
contradicting the claim that this note appears only when the cap reduced the value. -/
theorem valueFor_cap_note_without_binding :
    (valueFor c6card c9ps [c9off]).notes = [Note.percentBackCapped 10 20] ∧
    (valueFor c6card c9ps [c9off]).bonusValue =
      (c9ps.amountCents / 100) * (c9off.value.percent.getD 0 / 100) := by
  constructor <;>
    norm_num +decide [valueFor, baseEarnings, offerStep, cppFor, staticMultFor,
      activeRotatingWindow, CPP_DEFAULTS, offerActiveNow, isWithin, offerAppliesToCard,
      offerMatchesCategory, percentBonusAndNote, resolvedCapCents, jsTruthy,
      c6card, c9off, c9ps]

/-- C9 witness: the amended cap-note theorem applied at the concrete capped offer. -/
theorem valueFor_cap_note_witness :
    (valueFor c6card c9ps [c9off]).notes = (valueFor c6card c9ps []).notes ++
      [(match effectiveCap c9off.value with
        | some c => Note.percentBackCapped (c9off.value.percent.getD 0) (c / 100)
        | none => Note.percentBack (c9off.value.percent.getD 0))] :=
  valueFor_cap_note c6card c9ps c9off (by decide) (by decide) (by decide) (by decide)
    (Or.inl rfl)

/-! ## C7: points/miles cards never consult rotating rules -/

/-- C7: for a card whose `type` is `points` or `miles`, `valueFor` computes
`baseValue = amount × staticMultiplier × cpp/100` and never consults `rotating_rules`
or the user's rotating state: the whole valuation result is the same whatever the
card's `rotating_rules` are. -/
theorem valueFor_points_ignores_rotating (card : Card) (ps : ValueParams)
    (offs : List Offer) (h : card.type = some "points" ∨ card.type = some "miles")
    (rr : List RotatingRule) :
    valueFor { card with rotating_rules := rr } ps offs =
      valueFor { card with rotating_rules := [] } ps offs ∧
    (valueFor card ps offs).baseValue =
      (ps.amountCents / 100) * staticMultFor card ps.categoryId *
        (cppFor card ps.programOverrides / 100) := by
  have hty : card.type.getD "points" ≠ "cashback" := by
    rcases h with h | h <;> simp [h]
  have hcpp : ∀ x : List RotatingRule,
      cppFor { card with rotating_rules := x } ps.programOverrides =
        cppFor card ps.programOverrides := by
    intro x; simp [cppFor]
  have hsm : ∀ x : List RotatingRule,
      staticMultFor { card with rotating_rules := x } ps.categoryId =
        staticMultFor card ps.categoryId := by
    intro x; simp [staticMultFor]
  have hbe : ∀ (x : List RotatingRule) (c sm : ℚ),
      baseEarnings { card with rotating_rules := x } ps c sm (card.type.getD "points") =
        ((ps.amountCents / 100) * sm * (c / 100), 0, []) := by
    intro x c sm; simp [baseEarnings, hty]
  have hstep : ∀ x : List RotatingRule,
      offerStep { card with rotating_rules := x } ps (cppFor card ps.programOverrides)
          (card.type.getD "points") =
        offerStep card ps (cppFor card ps.programOverrides) (card.type.getD "points") := by
    intro x; funext acc off; simp [offerStep, offerAppliesToCard]
  have hbe2 : baseEarnings card ps (cppFor card ps.programOverrides)
      (staticMultFor card ps.categoryId) (card.type.getD "points") =
        ((ps.amountCents / 100) * staticMultFor card ps.categoryId *
          (cppFor card ps.programOverrides / 100), 0, []) := by
    simp [baseEarnings, hty]
  constructor
  · simp only [valueFor]
    simp only [show ({ card with rotating_rules := rr } : Card).type = card.type from rfl,
      show ({ card with rotating_rules := [] } : Card).type = card.type from rfl,
      hcpp, hsm, hbe, hstep]
  · simp only [valueFor, hbe2]

/-- Witness card for C7: a points card that defines rotating rules. -/
def c7card : Card := ⟨"c7", "UR", some "points", some 1, none, [("grocery", 3)], []⟩

/-- C7 witness: the theorem applied at a concrete points card, non-trivially replacing
its rotating rules by a matching rule. -/
theorem valueFor_points_ignores_rotating_witness :
    valueFor { c7card with rotating_rules := [c4rule1] } c10ps [] =
      valueFor { c7card with rotating_rules := [] } c10ps [] ∧
    (valueFor c7card c10ps []).baseValue =
      (c10ps.amountCents / 100) * staticMultFor c7card c10ps.categoryId *
        (cppFor c7card c10ps.programOverrides / 100) :=
  valueFor_points_ignores_rotating c7card c10ps [] (Or.inl rfl) [c4rule1]

/-! ## C1: ranking — permutation, sortedness, stability -/

instance : IsTotal RankedResult rankBefore := by
  constructor
  intro a b
  rcases lt_trichotomy a.dollars b.dollars with h | h | h
  · exact Or.inr (Or.inl h)
  · rcases le_total a.bonusValue b.bonusValue with hb | hb
    · exact Or.inr (Or.inr ⟨h.symm, hb⟩)
    · exact Or.inl (Or.inr ⟨h, hb⟩)
  · exact Or.inl (Or.inl h)

instance : IsTrans RankedResult rankBefore := by
  constructor
  intro a b c hab hbc
  rcases hab with h1 | ⟨h1, h1'⟩ <;> rcases hbc with h2 | ⟨h2, h2'⟩
  · exact Or.inl (h2.trans h1)
  · exact Or.inl (by rw [← h2]; exact h1)
  · exact Or.inl (by rw [h1]; exact h2)
  · exact Or.inr ⟨h1.trans h2, h2'.trans h1'⟩

theorem filter_orderedInsert (p : RankedResult → Bool) (a : RankedResult)
    (hkey : ∀ y, p a = true → p y = true → rankBefore a y) :
    ∀ l : List RankedResult,
      (List.orderedInsert rankBefore a l).filter p =
        (if p a then a :: l.filter p else l.filter p) := by
  intro l
  induction l with
  | nil => cases hpa : p a <;> simp [List.orderedInsert, List.filter_cons, hpa]
  | cons y l ih =>
    simp only [List.orderedInsert]
    by_cases hr : rankBefore a y
    · rw [if_pos hr]
      cases hpa : p a <;> cases hpy : p y <;> simp [List.filter_cons, hpa, hpy]
    · rw [if_neg hr]
      have hnot : ¬(p a = true ∧ p y = true) := fun hh => hr (hkey y hh.1 hh.2)
      cases hpa : p a <;> cases hpy : p y <;> simp_all [List.filter_cons]

theorem filter_insertionSort (p : RankedResult → Bool)
    (hkey : ∀ x y, p x = true → p y = true → rankBefore x y) :
    ∀ l : List RankedResult,
      (List.insertionSort rankBefore l).filter p = l.filter p := by
  intro l
  induction l with
  | nil => simp [List.insertionSort]
  | cons a l ih =>
    simp only [List.insertionSort]
    rw [filter_orderedInsert p a (fun y ha hy => hkey a y ha hy)]
    cases hpa : p a <;> simp [List.filter_cons, hpa, ih]

/-- C1: `rankCards` computes one valuation result per card (the output is a permutation
of the per-card valuations, and an empty wallet yields an empty list), sorted so that
every earlier result `rankBefore`-precedes every later one (descending `dollars`, ties
broken by descending `bonusValue`), and the sort is stable: for any key
`(dollars, bonusValue)`, the results carrying exactly that key appear in the output in
the same order as in the input wallet. -/
theorem rankCards_spec (cards : List Card) (ps : ValueParams)
    (offersByCard : List (String × List Offer)) :
    rankCards [] ps offersByCard = [] ∧
    List.Perm (rankCards cards ps offersByCard)
      (cards.map (fun c => toRanked c (valueFor c ps ((offersByCard.lookup c.id).getD [])))) ∧
    List.Sorted rankBefore (rankCards cards ps offersByCard) ∧
    (∀ d b : ℚ,
      (rankCards cards ps offersByCard).filter
          (fun x => decide (x.dollars = d) && decide (x.bonusValue = b)) =
        (cards.map
            (fun c => toRanked c (valueFor c ps ((offersByCard.lookup c.id).getD [])))).filter
          (fun x => decide (x.dollars = d) && decide (x.bonusValue = b))) := by
  refine ⟨rfl, List.perm_insertionSort rankBefore _, List.sorted_insertionSort rankBefore _, ?_⟩
  intro d b
  exact filter_insertionSort _
    (fun x y hx hy => by
      simp only [Bool.and_eq_true, decide_eq_true_eq] at hx hy
      exact Or.inr ⟨hx.1.trans hy.1.symm, le_of_eq (hy.2.trans hx.2.symm)⟩) _

/-! ## C8: monotonicity of dollars in the purchase amount -/

/-- All numeric fields of a rotating rule are non-negative (rates, after-rates, caps). -/
def nonnegRule (r : RotatingRule) : Bool :=
  r.rate.all (fun q => decide (0 ≤ q)) && r.after_rate.all (fun q => decide (0 ≤ q)) &&
    r.cap_cents.all (fun q => decide (0 ≤ q))

/-- All rates and multipliers of a card are non-negative. -/
def nonnegCard (card : Card) : Bool :=
  card.base.all (fun q => decide (0 ≤ q)) && card.cpp_default.all (fun q => decide (0 ≤ q)) &&
    card.categories.all (fun kv => decide (0 ≤ kv.2)) && card.rotating_rules.all nonnegRule

/-- All numeric fields of an offer's value record are non-negative. -/
def nonnegOfferValue (v : OfferValue) : Bool :=
  v.fixed_amount.all (fun q => decide (0 ≤ q)) && v.percent.all (fun q => decide (0 ≤ q)) &&
    v.points_multiplier.all (fun q => decide (0 ≤ q)) &&
    v.max_back_cents.all (fun q => decide (0 ≤ q)) &&
    v.max_amount_cents.all (fun q => decide (0 ≤ q))

/-- All caller-supplied cents-per-point overrides are non-negative. -/
def nonnegOverrides (po : List (String × ℚ)) : Bool := po.all (fun kv => decide (0 ≤ kv.2))

theorem lookup_nonneg {l : List (String × ℚ)}
    (hl : l.all (fun kv => decide (0 ≤ kv.2)) = true) {k : String} {v : ℚ}
    (h : l.lookup k = some v) : 0 ≤ v := by
  induction l with
  | nil => simp [List.lookup] at h
  | cons kv l ih =>
    obtain ⟨k', v'⟩ := kv
    simp only [List.all_cons, Bool.and_eq_true, decide_eq_true_eq] at hl
    rw [List.lookup] at h
    by_cases hk : (k == k') = true
    · rw [hk] at h
      simp only [Option.some.injEq] at h
      exact h ▸ hl.1
    · rw [Bool.eq_false_iff.mpr hk] at h
      exact ih hl.2 h

theorem staticMultFor_nonneg (card : Card) (cat : String) (hc : nonnegCard card = true) :
    0 ≤ staticMultFor card cat := by
  simp only [nonnegCard, Bool.and_eq_true] at hc
  obtain ⟨⟨⟨hb, -⟩, hcats⟩, -⟩ := hc
  unfold staticMultFor
  cases hl : card.categories.lookup cat with
  | some m => exact lookup_nonneg hcats hl
  | none =>
    cases hbase : card.base with
    | none => show (0:ℚ) ≤ 1; norm_num
    | some b =>
      rw [hbase] at hb
      simp only [Option.all_some, decide_eq_true_eq] at hb
      show (0:ℚ) ≤ if b ≠ 0 then b else 1
      split_ifs with h
      · exact hb
      · norm_num

theorem CPP_DEFAULTS_nonneg : CPP_DEFAULTS.all (fun kv => decide (0 ≤ kv.2)) = true := by
  norm_num [CPP_DEFAULTS]

theorem cppFor_nonneg (card : Card) (po : List (String × ℚ)) (hc : nonnegCard card = true)
    (hp : nonnegOverrides po = true) : 0 ≤ cppFor card po := by
  simp only [nonnegCard, Bool.and_eq_true] at hc
  obtain ⟨⟨⟨-, hd⟩, -⟩, -⟩ := hc
  unfold cppFor
  cases ho : po.lookup card.program with
  | some v => simpa using lookup_nonneg hp ho
  | none =>
    cases hcd : card.cpp_default with
    | some d =>
      rw [hcd] at hd
      simp only [Option.all_some, decide_eq_true_eq] at hd
      simpa using hd
    | none =>
      cases hdf : CPP_DEFAULTS.lookup card.program with
      | some c => simpa using lookup_nonneg CPP_DEFAULTS_nonneg hdf
      | none => norm_num

theorem percentBonusAndNote_fst_mono (a1 a2 : ℚ) (h12 : a1 ≤ a2) (v : OfferValue)
    (hv : nonnegOfferValue v = true) :
    (percentBonusAndNote a1 v).1 ≤ (percentBonusAndNote a2 v).1 := by
  simp only [nonnegOfferValue, Bool.and_eq_true] at hv
  obtain ⟨⟨⟨⟨-, hp⟩, -⟩, -⟩, -⟩ := hv
  have hp0 : 0 ≤ v.percent.getD 0 := by
    cases hpc : v.percent with
    | none => norm_num
    | some p => rw [hpc] at hp; simp only [Option.all_some, decide_eq_true_eq] at hp; simpa using hp
  have hmul : a1 * (v.percent.getD 0 / 100) ≤ a2 * (v.percent.getD 0 / 100) :=
    mul_le_mul_of_nonneg_right h12 (by positivity)
  simp only [percentBonusAndNote]
  split_ifs
  · exact min_le_min hmul le_rfl
  · exact hmul

theorem percentBonusAndNote_fst_nonneg (a : ℚ) (ha : 0 ≤ a) (v : OfferValue)
    (hv : nonnegOfferValue v = true) : 0 ≤ (percentBonusAndNote a v).1 := by
  simp only [nonnegOfferValue, Bool.and_eq_true] at hv
  obtain ⟨⟨⟨⟨-, hp⟩, -⟩, hmb⟩, hma⟩ := hv
  have hp0 : 0 ≤ v.percent.getD 0 := by
    cases hpc : v.percent with
    | none => norm_num
    | some p => rw [hpc] at hp; simp only [Option.all_some, decide_eq_true_eq] at hp; simpa using hp
  have hraw : 0 ≤ a * (v.percent.getD 0 / 100) := by positivity
  have hcap : 0 ≤ (resolvedCapCents v).getD 0 := by
    unfold resolvedCapCents
    split_ifs
    · cases hbc : v.max_back_cents with
      | none => norm_num
      | some c =>
        rw [hbc] at hmb; simp only [Option.all_some, decide_eq_true_eq] at hmb; simpa using hmb
    · cases hac : v.max_amount_cents with
      | none => norm_num
      | some c =>
        rw [hac] at hma; simp only [Option.all_some, decide_eq_true_eq] at hma; simpa using hma
  simp only [percentBonusAndNote]
  split_ifs
  · exact le_min hraw (by positivity)
  · exact hraw

theorem option_all_getD_nonneg {o : Option ℚ} (h : o.all (fun q => decide (0 ≤ q)) = true) :
    0 ≤ o.getD 0 := by
  cases o with
  | none => norm_num
  | some q => simpa using h

theorem offerContrib_mono (card : Card) (ps : ValueParams) (cpp : ℚ) (ty : String)
    (off : Offer) (a1 a2 : ℚ) (h0 : 0 ≤ a1) (h12 : a1 ≤ a2) (hcpp : 0 ≤ cpp)
    (hv : nonnegOfferValue off.value = true) :
    offerContrib card { ps with amountCents := a1 } cpp ty off ≤
      offerContrib card { ps with amountCents := a2 } cpp ty off := by
  have hv' := hv
  simp only [nonnegOfferValue, Bool.and_eq_true] at hv'
  obtain ⟨⟨⟨⟨hf, -⟩, hm⟩, -⟩, -⟩ := hv'
  have hfix : 0 ≤ off.value.fixed_amount.getD 0 := option_all_getD_nonneg hf
  have hpm : 0 ≤ off.value.points_multiplier.getD 0 := option_all_getD_nonneg hm
  have hdiv : a1 / 100 ≤ a2 / 100 := by linarith
  have hdiv0 : (0:ℚ) ≤ a2 / 100 := by linarith
  have hfix' : (0:ℚ) ≤ off.value.fixed_amount.getD 0 / 100 := by positivity
  have hpm' : (0:ℚ) ≤ off.value.points_multiplier.getD 0 / 100 := by positivity
  have hcpp' : (0:ℚ) ≤ cpp / 100 := by positivity
  have hmono1 := percentBonusAndNote_fst_mono (a1 / 100) (a2 / 100) hdiv off.value hv
  have hnn2 := percentBonusAndNote_fst_nonneg (a2 / 100) hdiv0 off.value hv
  have hpts1 : a1 / 100 * (off.value.points_multiplier.getD 0 / 100) ≤
      a2 / 100 * (off.value.points_multiplier.getD 0 / 100) :=
    mul_le_mul_of_nonneg_right hdiv hpm'
  have hpts2 : a1 / 100 * off.value.points_multiplier.getD 0 * (cpp / 100) ≤
      a2 / 100 * off.value.points_multiplier.getD 0 * (cpp / 100) :=
    mul_le_mul_of_nonneg_right (mul_le_mul_of_nonneg_right hdiv hpm) hcpp'
  simp only [offerContrib]
  split_ifs <;>
    first
      | exact le_rfl
      | assumption
      | (exfalso; linarith)

theorem capSplit_sum_mono (a1 a2 bp ap C : ℚ) (h12 : a1 ≤ a2) (hbp : 0 ≤ bp) (hap : 0 ≤ ap) :
    (applyCapSplitPercent a1 bp ap C).baseVal + (applyCapSplitPercent a1 bp ap C).boostVal ≤
      (applyCapSplitPercent a2 bp ap C).baseVal + (applyCapSplitPercent a2 bp ap C).boostVal := by
  simp only [applyCapSplitPercent]
  rcases le_total a1 (max 0 C) with h1 | h1 <;> rcases le_total a2 (max 0 C) with h2 | h2
  · rw [min_eq_left h1, min_eq_left h2]
    nlinarith [mul_nonneg (sub_nonneg.mpr h12) hbp]
  · rw [min_eq_left h1, min_eq_right h2]
    nlinarith [mul_nonneg (sub_nonneg.mpr h2) hap, mul_nonneg (sub_nonneg.mpr h1) hbp]
  · have e1 : a1 = max 0 C := le_antisymm (h12.trans h2) h1
    have e2 : a2 = max 0 C := le_antisymm h2 (h1.trans h12)
    rw [e1, e2]
  · rw [min_eq_right h1, min_eq_right h2]
    nlinarith [mul_nonneg (sub_nonneg.mpr h12) hap]

theorem baseEarnings_val_mono (card : Card) (ps : ValueParams) (cpp sm : ℚ) (ty : String)
    (a1 a2 : ℚ) (h12 : a1 ≤ a2) (hsm : 0 ≤ sm) (hcpp : 0 ≤ cpp)
    (hrules : card.rotating_rules.all nonnegRule = true) :
    (baseEarnings card { ps with amountCents := a1 } cpp sm ty).1 +
        (baseEarnings card { ps with amountCents := a1 } cpp sm ty).2.1 ≤
      (baseEarnings card { ps with amountCents := a2 } cpp sm ty).1 +
        (baseEarnings card { ps with amountCents := a2 } cpp sm ty).2.1 := by
  have hstat : a1 / 100 * (sm / 100) ≤ a2 / 100 * (sm / 100) :=
    mul_le_mul_of_nonneg_right (by linarith) (by positivity)
  simp only [baseEarnings]
  by_cases hty : ty = "cashback"
  · simp only [if_pos hty]
    cases hw : activeRotatingWindow card ps.categoryId ps.nowISO ps.userRotating with
    | none => simpa using hstat
    | some w =>
      by_cases hact : w.active = true
      · simp only [hact, if_true]
        have hex : ∃ r, card.rotating_rules.find? (ruleMatches ps.categoryId ps.nowISO) = some r ∧
            w = windowFor r (lookupUserState ps.userRotating card.id) := by
          unfold activeRotatingWindow at hw
          cases hf : card.rotating_rules.find? (ruleMatches ps.categoryId ps.nowISO) with
          | none => rw [hf] at hw; simp at hw
          | some r =>
            rw [hf] at hw
            simp at hw
            exact ⟨r, rfl, hw.symm⟩
        obtain ⟨r, hf, hwr⟩ := hex
        have hrmem : r ∈ card.rotating_rules := List.mem_of_find?_eq_some hf
        have hr : nonnegRule r = true := List.all_eq_true.mp hrules r hrmem
        simp only [nonnegRule, Bool.and_eq_true] at hr
        obtain ⟨⟨hrr, hra⟩, -⟩ := hr
        have hbp : 0 ≤ w.boostRatePercent := by
          rw [hwr]
          exact option_all_getD_nonneg hrr
        have hap : 0 ≤ w.afterRatePercent.getD sm := by
          rw [hwr]
          show 0 ≤ r.after_rate.getD sm
          cases har : r.after_rate with
          | none => simpa using hsm
          | some q =>
            rw [har] at hra
            simpa using hra
        simpa using capSplit_sum_mono a1 a2 w.boostRatePercent (w.afterRatePercent.getD sm)
          w.remainingCapCents h12 hbp hap
      · simp only [hact, if_false]
        simpa using hstat
  · simp only [if_neg hty]
    have := mul_le_mul_of_nonneg_right
      (mul_le_mul_of_nonneg_right (show a1 / 100 ≤ a2 / 100 by linarith) hsm)
      (show (0:ℚ) ≤ cpp / 100 by positivity)
    simpa using this

/-- C8: with every rate, multiplier and cap of the card, the offers and the caller's
cents-per-point overrides non-negative, the total `dollars` of `valueFor` is a
monotonically non-decreasing function of `amountCents`: raising the purchase amount
never lowers the estimated value. -/
theorem valueFor_dollars_mono (card : Card) (ps : ValueParams) (offs : List Offer)
    (a1 a2 : ℚ) (h0 : 0 ≤ a1) (h12 : a1 ≤ a2)
    (hcard : nonnegCard card = true)
    (hoffs : offs.all (fun o => nonnegOfferValue o.value) = true)
    (hpo : nonnegOverrides ps.programOverrides = true) :
    (valueFor card { ps with amountCents := a1 } offs).dollars ≤
      (valueFor card { ps with amountCents := a2 } offs).dollars := by
  have hcpp : 0 ≤ cppFor card ps.programOverrides :=
    cppFor_nonneg card ps.programOverrides hcard hpo
  have hsm : 0 ≤ staticMultFor card ps.categoryId :=
    staticMultFor_nonneg card ps.categoryId hcard
  have hrules : card.rotating_rules.all nonnegRule = true := by
    simp only [nonnegCard, Bool.and_eq_true] at hcard
    exact hcard.2
  have hbase := baseEarnings_val_mono card ps (cppFor card ps.programOverrides)
    (staticMultFor card ps.categoryId) (card.type.getD "points") a1 a2 h12 hsm hcpp hrules
  have hsum : ((offs.map (offerContrib card { ps with amountCents := a1 }
        (cppFor card ps.programOverrides) (card.type.getD "points"))).sum) ≤
      ((offs.map (offerContrib card { ps with amountCents := a2 }
        (cppFor card ps.programOverrides) (card.type.getD "points"))).sum) :=
    List.sum_le_sum (fun o ho => offerContrib_mono card ps (cppFor card ps.programOverrides)
      (card.type.getD "points") o a1 a2 h0 h12 hcpp (List.all_eq_true.mp hoffs o ho))
  simp only [valueFor]
  rw [foldl_offerStep_fst, foldl_offerStep_fst]
  linarith [hbase, hsum]

/-- C8 witness: the monotonicity theorem applied at a concrete cashback card with a
capped percent offer, raising the amount from $50 to $200. -/
theorem valueFor_dollars_mono_witness :
    (valueFor c6card { c6ps with amountCents := 5000 } [c6off]).dollars ≤
      (valueFor c6card { c6ps with amountCents := 20000 } [c6off]).dollars :=
  valueFor_dollars_mono c6card c6ps [c6off] 5000 20000 (by norm_num) (by norm_num)
    (by norm_num [nonnegCard, c6card, nonnegRule]) (by norm_num [nonnegOfferValue, c6off]) rfl
